import Mathlib

/-!
Verification of the animation engine of the Parallel-C viewer.

The engine (the `Visualizer` component) is embedded shallowly:

* JavaScript numbers are modelled as exact rationals (ℚ); the one
  transcendental formula (the cosine oscillation) is modelled over ℝ.
* The mutable refs of the component become fields of explicit state
  structures (`ClockState`, `RotState`), and the `useEffect` bodies and
  the `animate` callback become state-transition functions.
* The two sources of randomness in the rotation physics
  (`Math.random() > 0.5` and `Math.random() * 4000`) are supplied as
  oracle inputs (`rdir`, `rdelay`) to the tick function.
-/

/-- Clock refs of the component: `startTimeRef` (nullable) and
`pausedTimeRef`.  `startTimeRef.current === null` is modelled by `none`. -/
structure ClockState where
  startTime : Option ℚ
  pausedTime : ℚ
deriving DecidableEq, Repr

/-- Rotation-physics refs of the component: `currentRotationRef`,
`targetDirectionRef`, `smoothedDirectionRef`, `nextDirectionChangeTimeRef`
and `lastFrameTimeRef`. -/
structure RotState where
  currentRotation : ℚ
  targetDirection : ℚ
  smoothedDirection : ℚ
  nextDirectionChangeTime : ℚ
  lastFrameTime : ℚ
deriving DecidableEq, Repr

/-- The full mutable state touched by the `useEffect` transitions. -/
structure EngineState where
  clock : ClockState
  rot : RotState
deriving DecidableEq, Repr

/-- Initial values of the refs: `useRef(0)` for rotation state,
`targetDirectionRef = useRef(1)`, `smoothedDirectionRef = useRef(0)`. -/
def initRotState : RotState :=
  { currentRotation := 0
    targetDirection := 1
    smoothedDirection := 0
    nextDirectionChangeTime := 0
    lastFrameTime := 0 }

/-- Elapsed active time as the engine reads it: `time - startTimeRef.current`
while running (`animate`), and the frozen `pausedTimeRef.current` while
stopped (the static-frame path of the `useEffect`). -/
def elapsedActiveTime (c : ClockState) (now : ℚ) : ℚ :=
  match c.startTime with
  | some s => now - s
  | none => c.pausedTime

/-- Clock part of the `isPlaying` branch of the `useEffect`: the source has
an `if (startTimeRef.current === null)` whose two branches are identical,
both executing `startTimeRef.current = now - pausedTimeRef.current`.  The
degenerate conditional is kept to mirror the source. -/
def startClock (now : ℚ) (c : ClockState) : ClockState :=
  match c.startTime with
  | none => { c with startTime := some (now - c.pausedTime) }
  | some _ => { c with startTime := some (now - c.pausedTime) }

/-- Clock part of the `else` (pause) branch of the `useEffect`:
`if (startTimeRef.current !== null) { pausedTimeRef.current = now - startTimeRef.current; startTimeRef.current = null; }` -/
def stopClock (now : ℚ) (c : ClockState) : ClockState :=
  match c.startTime with
  | some s => { startTime := none, pausedTime := now - s }
  | none => c

/-- The whole `isPlaying` branch of the `useEffect` (lines 338-354): re-seed
the clock, set `lastFrameTimeRef.current = now`, and re-seed
`nextDirectionChangeTimeRef` to `now + 1000` if it has already elapsed. -/
def playingEffect (now : ℚ) (s : EngineState) : EngineState :=
  { clock := startClock now s.clock
    rot :=
      { s.rot with
        lastFrameTime := now
        nextDirectionChangeTime :=
          if s.rot.nextDirectionChangeTime < now then now + 1000
          else s.rot.nextDirectionChangeTime } }

/-- One start/stop pair applied to the clock: `start` at the first
timestamp, `stop` at the second. -/
def runIntervals (l : List (ℚ × ℚ)) (c : ClockState) : ClockState :=
  l.foldl (fun c p => stopClock p.2 (startClock p.1 c)) c

/-- Sum of the active-only interval lengths of a start/stop trace. -/
def intervalSum (l : List (ℚ × ℚ)) : ℚ :=
  (l.map (fun p => p.2 - p.1)).sum

theorem startClock_eq (now : ℚ) (c : ClockState) :
    startClock now c = { c with startTime := some (now - c.pausedTime) } := by
  unfold startClock
  cases c.startTime <;> rfl

theorem runIntervals_pausedTime (l : List (ℚ × ℚ)) (p : ℚ) :
    runIntervals l { startTime := none, pausedTime := p } =
      { startTime := none, pausedTime := p + intervalSum l } := by
  induction l generalizing p with
  | nil => simp [runIntervals, intervalSum]
  | cons hd tl ih =>
    have step :
        stopClock hd.2 (startClock hd.1 { startTime := none, pausedTime := p }) =
          { startTime := none, pausedTime := p + (hd.2 - hd.1) } := by
      simp [startClock, stopClock]
      ring
    have : runIntervals (hd :: tl) { startTime := none, pausedTime := p } =
        runIntervals tl { startTime := none, pausedTime := p + (hd.2 - hd.1) } := by
      simp [runIntervals, step]
    rw [this, ih]
    have : p + (hd.2 - hd.1) + intervalSum tl = p + intervalSum (hd :: tl) := by
      simp [intervalSum]
      ring
    rw [this]

/-- C2: stopping at `t` and starting again at any `t'` leaves the elapsed
active time unchanged, and any finite sequence of start/stop cycles from
the initial clock yields an elapsed active time equal to the sum of the
active-only intervals (paused wall-clock time is never counted). -/
theorem pause_resume_no_drift :
    (∀ (c : ClockState) (s0 t t' : ℚ), c.startTime = some s0 →
      elapsedActiveTime (startClock t' (stopClock t c)) t' = elapsedActiveTime c t) ∧
    (∀ (l : List (ℚ × ℚ)) (now : ℚ),
      elapsedActiveTime (runIntervals l { startTime := none, pausedTime := 0 }) now =
        intervalSum l) := by
  constructor
  · intro c s0 t t' h
    simp [stopClock, startClock, elapsedActiveTime, h]
  · intro l now
    rw [runIntervals_pausedTime]
    simp [elapsedActiveTime]

/-- Witness for `pause_resume_no_drift` at a concrete running clock and a
concrete two-interval trace. -/
theorem pause_resume_no_drift_witness :
    ((⟨some 1000, 0⟩ : ClockState).startTime = some 1000 ∧
      elapsedActiveTime (startClock 9000 (stopClock 6000 ⟨some 1000, 0⟩)) 9000 =
        elapsedActiveTime ⟨some 1000, 0⟩ 6000) ∧
    elapsedActiveTime
        (runIntervals [(10, 25), (40, 100)] { startTime := none, pausedTime := 0 }) 12345 =
      intervalSum [(10, 25), (40, 100)] :=
  ⟨⟨rfl, pause_resume_no_drift.1 ⟨some 1000, 0⟩ 1000 6000 9000 rfl⟩,
    pause_resume_no_drift.2 [(10, 25), (40, 100)] 12345⟩

/-- C1 (code bug): a parameter change while the engine is running re-runs
the `isPlaying` branch of the `useEffect`, which executes
`startTimeRef.current = now - pausedTimeRef.current` with the stale
`pausedTimeRef` value from the last pause (0 if never paused).  Concretely:
a clock that started at 1000 and never paused has elapsed 5000 at
`now = 6000`, but after the effect re-runs at 6000 the elapsed active time
is 0 — the clock is reset, contradicting the documented behaviour. -/
theorem param_change_resets_clock :
    elapsedActiveTime
        (⟨some 1000, 0⟩ : ClockState) 6000 = 5000 ∧
    elapsedActiveTime
        ((playingEffect 6000 ⟨⟨some 1000, 0⟩, initRotState⟩).clock) 6000 = 0 ∧
    (0 : ℚ) ≠ 5000 := by
  refine ⟨by norm_num [elapsedActiveTime], ?_, by norm_num⟩
  norm_num [elapsedActiveTime, playingEffect, startClock]

/-- Cycle duration in milliseconds: `const cycleDuration = 4000 / speed`. -/
def cycleDuration (speed : ℚ) : ℚ := 4000 / speed

/-- `const cycleCount = Math.floor(elapsedTotal / cycleDuration)`. -/
def cycleCount (E speed : ℚ) : ℤ := ⌊E / cycleDuration speed⌋

/-- `Math.floor(cycleCount / phaseInterval)`, as a function of the cycle
index. -/
def phaseGroupOfCycle (c P : ℤ) : ℤ := ⌊(c : ℚ) / (P : ℚ)⌋

/-- `const isGlobalPhase = phaseGroup % 2 !== 0`, as a function of the cycle
index. -/
def isGlobalOfCycle (c P : ℤ) : Bool := phaseGroupOfCycle c P % 2 != 0

/-- `const phaseGroup = Math.floor(cycleCount / phaseInterval)`. -/
def phaseGroup (E speed : ℚ) (P : ℤ) : ℤ := phaseGroupOfCycle (cycleCount E speed) P

/-- The phase mode of the frame: `true` means Global, `false` means
Parallel. -/
def isGlobalPhase (E speed : ℚ) (P : ℤ) : Bool := isGlobalOfCycle (cycleCount E speed) P

theorem phaseGroupOfCycle_add (c P : ℤ) (hP : 1 ≤ P) :
    phaseGroupOfCycle (c + P) P = phaseGroupOfCycle c P + 1 := by
  unfold phaseGroupOfCycle
  have hP0 : (P : ℚ) ≠ 0 := by
    exact_mod_cast (by omega : P ≠ 0)
  have hdiv : ((c + P : ℤ) : ℚ) / (P : ℚ) = (c : ℚ) / (P : ℚ) + 1 := by
    push_cast
    rw [add_div, div_self hP0]
  rw [hdiv]
  exact_mod_cast Int.floor_add_one _

theorem isGlobalOfCycle_flip (c P : ℤ) (hP : 1 ≤ P) :
    isGlobalOfCycle (c + P) P = !isGlobalOfCycle c P := by
  unfold isGlobalOfCycle
  rw [phaseGroupOfCycle_add c P hP]
  rcases Int.emod_two_eq (phaseGroupOfCycle c P) with h | h
  · have h2 : (phaseGroupOfCycle c P + 1) % 2 = 1 := by omega
    simp only [h, h2]
    decide
  · have h2 : (phaseGroupOfCycle c P + 1) % 2 = 0 := by omega
    simp only [h, h2]
    decide

/-- C3: the resolver computes `cycleDuration = 4000/S`,
`cycleCount = floor(E/cycleDuration)`, `phaseGroup = floor(cycleCount/P)`
and `phaseMode = Global iff phaseGroup is odd`; the mode is Parallel at
`E = 0` and flips whenever the cycle index advances by `P`; with
`S = 0.5` and `P = 3` the mode is Parallel at `E = 0` and `E = 23999` and
Global at `E = 24001`. -/
theorem phase_resolver_correct :
    (∀ S : ℚ, cycleDuration S = 4000 / S) ∧
    (∀ E S : ℚ, cycleCount E S = ⌊E / cycleDuration S⌋) ∧
    (∀ (E S : ℚ) (P : ℤ), phaseGroup E S P = ⌊((cycleCount E S : ℤ) : ℚ) / (P : ℚ)⌋) ∧
    (∀ (E S : ℚ) (P : ℤ), isGlobalPhase E S P = true ↔ phaseGroup E S P % 2 ≠ 0) ∧
    (∀ (S : ℚ) (P : ℤ), isGlobalPhase 0 S P = false) ∧
    (∀ c P : ℤ, 1 ≤ P → isGlobalOfCycle (c + P) P = !isGlobalOfCycle c P) ∧
    (isGlobalPhase 0 (1/2) 3 = false ∧
      isGlobalPhase 23999 (1/2) 3 = false ∧
      isGlobalPhase 24001 (1/2) 3 = true) := by
  refine ⟨fun S => rfl, fun E S => rfl, fun E S P => rfl, ?_, ?_, isGlobalOfCycle_flip, ?_, ?_, ?_⟩
  · intro E S P
    simp [isGlobalPhase, isGlobalOfCycle, phaseGroup]
  · intro S P
    simp [isGlobalPhase, cycleCount, isGlobalOfCycle, phaseGroupOfCycle]
  · norm_num [isGlobalPhase, isGlobalOfCycle, phaseGroupOfCycle, cycleCount, cycleDuration]
  · norm_num [isGlobalPhase, isGlobalOfCycle, phaseGroupOfCycle, cycleCount, cycleDuration]
  · norm_num [isGlobalPhase, isGlobalOfCycle, phaseGroupOfCycle, cycleCount, cycleDuration]

/-- Witness for `phase_resolver_correct` at cycle index 2 and
`phaseInterval = 3`. -/
theorem phase_resolver_correct_witness :
    (1 : ℤ) ≤ 3 ∧ isGlobalOfCycle (2 + 3) 3 = !isGlobalOfCycle 2 3 :=
  ⟨by norm_num, phase_resolver_correct.2.2.2.2.2.1 2 3 (by norm_num)⟩

/-- Outer radius of the Landolt-C geometry: `const R_OUT = 100`. -/
def R_OUT : ℚ := 100

/-- `const maxScale = separation / (2 * R_OUT)`. -/
def maxScale (separation : ℚ) : ℚ := separation / (2 * R_OUT)

/-- `const minScale = maxScale * endSizePct`. -/
def minScale (separation endSizePct : ℚ) : ℚ := maxScale separation * endSizePct

/-- `const baseOffset = (separation / 2) + 0.5`. -/
def baseOffset (separation : ℚ) : ℚ := separation / 2 + 0.5

/-- C9: with `separation = 1000`, `R_OUT = 100` and `endSizePct = 0.4` the
derived constants are `maxScale = 5`, `minScale = 2` and
`baseOffset = 500.5`. -/
theorem derived_constants_exact :
    maxScale 1000 = 5 ∧ minScale 1000 0.4 = 2 ∧ baseOffset 1000 = 500.5 := by
  norm_num [maxScale, minScale, baseOffset, R_OUT]

/-- Offset computation of the running tick path (`animate`, lines 303-310):
start from `baseOffset`; in the Global phase multiply by
`currentScale / maxScale`. -/
def offsetRunning (isGlobal : Bool) (base currentScale maxS : ℚ) : ℚ :=
  if isGlobal then base * (currentScale / maxS) else base

/-- Offset computation of the static paused path (`useEffect` else-branch,
lines 375-379); the source duplicates the running formula verbatim. -/
def offsetPaused (isGlobal : Bool) (base currentScale maxS : ℚ) : ℚ :=
  if isGlobal then base * (currentScale / maxS) else base

/-- C4: on both the running and the paused path, Parallel mode keeps
`offsetX = baseOffset` whatever the scale; Global mode gives
`offsetX = baseOffset * (currentScale / maxScale)`, which equals
`baseOffset` at `currentScale = maxScale`, is monotone in the scale, and
reaches 0 at scale 0. -/
theorem offset_by_phase_mode :
    (∀ base sc ms : ℚ, offsetRunning false base sc ms = base) ∧
    (∀ base sc ms : ℚ, offsetRunning true base sc ms = base * (sc / ms)) ∧
    (∀ base ms : ℚ, ms ≠ 0 → offsetRunning true base ms ms = base) ∧
    (∀ base ms s1 s2 : ℚ, 0 ≤ base → 0 < ms → s1 ≤ s2 →
      offsetRunning true base s1 ms ≤ offsetRunning true base s2 ms) ∧
    (∀ base ms : ℚ, offsetRunning true base 0 ms = 0) ∧
    (∀ base sc ms : ℚ, offsetPaused false base sc ms = base) ∧
    (∀ base sc ms : ℚ, offsetPaused true base sc ms = base * (sc / ms)) ∧
    (∀ base ms : ℚ, ms ≠ 0 → offsetPaused true base ms ms = base) ∧
    (∀ base ms s1 s2 : ℚ, 0 ≤ base → 0 < ms → s1 ≤ s2 →
      offsetPaused true base s1 ms ≤ offsetPaused true base s2 ms) ∧
    (∀ base ms : ℚ, offsetPaused true base 0 ms = 0) := by
  refine ⟨fun base sc ms => rfl, fun base sc ms => rfl, ?_, ?_, ?_,
    fun base sc ms => rfl, fun base sc ms => rfl, ?_, ?_, ?_⟩
  all_goals
    first
    | (intro base ms h
       simp [offsetRunning, offsetPaused, div_self h])
    | (intro base ms s1 s2 hb hm h12
       simp only [offsetRunning, offsetPaused, if_pos]
       gcongr)
    | (intro base ms
       simp [offsetRunning, offsetPaused])

/-- Witness for `offset_by_phase_mode` at `baseOffset 1000 = 500.5`,
`maxScale 1000 = 5` and scales 2 and 3. -/
theorem offset_by_phase_mode_witness :
    ((5 : ℚ) ≠ 0 ∧ offsetRunning true (baseOffset 1000) 5 5 = baseOffset 1000) ∧
    ((0 : ℚ) ≤ baseOffset 1000 ∧ (0 : ℚ) < 5 ∧ (2 : ℚ) ≤ 3 ∧
      offsetRunning true (baseOffset 1000) 2 5 ≤ offsetRunning true (baseOffset 1000) 3 5) :=
  ⟨⟨by norm_num, offset_by_phase_mode.2.2.1 (baseOffset 1000) 5 (by norm_num)⟩,
    ⟨by norm_num [baseOffset], by norm_num, by norm_num,
      offset_by_phase_mode.2.2.2.1 (baseOffset 1000) 5 2 3
        (by norm_num [baseOffset]) (by norm_num) (by norm_num)⟩⟩

/-- `const phase = (Math.cos(t * Math.PI * 2) + 1) / 2` — the scale
oscillation as a function of the cycle position `t`. -/
noncomputable def scaleOscillation (t : ℝ) : ℝ := (Real.cos (t * Real.pi * 2) + 1) / 2

/-- `const currentScale = minScale + (maxScale - minScale) * phase`, with
the derived rational constants cast into ℝ. -/
noncomputable def currentScaleAt (separation endSizePct : ℚ) (t : ℝ) : ℝ :=
  (minScale separation endSizePct : ℝ) +
    ((maxScale separation : ℝ) - (minScale separation endSizePct : ℝ)) * scaleOscillation t

theorem oscillation_zero : scaleOscillation 0 = 1 := by
  simp [scaleOscillation]

theorem oscillation_half : scaleOscillation (1 / 2) = 0 := by
  have h : (1 / 2 : ℝ) * Real.pi * 2 = Real.pi := by ring
  rw [scaleOscillation, h, Real.cos_pi]
  norm_num

theorem oscillation_bounds (t : ℝ) : 0 ≤ scaleOscillation t ∧ scaleOscillation t ≤ 1 := by
  have h1 := Real.cos_le_one (t * Real.pi * 2)
  have h2 := Real.neg_one_le_cos (t * Real.pi * 2)
  unfold scaleOscillation
  constructor <;> linarith

/-- C5: the oscillation maps 0 to 1 and 1/2 to 0 and has period 1; for
valid parameters (`0 ≤ separation`, `0 < endSizePct ≤ 1`) the current
scale stays within `[minScale, maxScale]` for every cycle position, and
equals `maxScale` at `t = 0`. -/
theorem oscillation_scale_correct :
    scaleOscillation 0 = 1 ∧
    scaleOscillation (1 / 2) = 0 ∧
    (∀ t : ℝ, scaleOscillation (t + 1) = scaleOscillation t) ∧
    (∀ (sep pct : ℚ) (t : ℝ), 0 ≤ sep → 0 < pct → pct ≤ 1 →
      (minScale sep pct : ℝ) ≤ currentScaleAt sep pct t ∧
        currentScaleAt sep pct t ≤ (maxScale sep : ℝ)) ∧
    (∀ sep pct : ℚ, currentScaleAt sep pct 0 = (maxScale sep : ℝ)) := by
  refine ⟨oscillation_zero, oscillation_half, ?_, ?_, ?_⟩
  · intro t
    have h : (t + 1) * Real.pi * 2 = t * Real.pi * 2 + 2 * Real.pi := by ring
    rw [scaleOscillation, scaleOscillation, h, Real.cos_add_two_pi]
  · intro sep pct t hs hp hp1
    obtain ⟨ho0, ho1⟩ := oscillation_bounds t
    have hM : (0 : ℝ) ≤ (maxScale sep : ℝ) := by
      have : (0 : ℚ) ≤ maxScale sep := by
        unfold maxScale R_OUT
        positivity
      exact_mod_cast this
    have hmin : (minScale sep pct : ℝ) = (maxScale sep : ℝ) * (pct : ℝ) := by
      unfold minScale
      push_cast
      ring
    have hp1' : ((pct : ℝ)) ≤ 1 := by exact_mod_cast hp1
    have hgap : (0 : ℝ) ≤ (maxScale sep : ℝ) - (minScale sep pct : ℝ) := by
      rw [hmin]
      nlinarith
    unfold currentScaleAt
    constructor
    · nlinarith [mul_nonneg hgap ho0]
    · nlinarith [mul_le_of_le_one_right hgap ho1]
  · intro sep pct
    unfold currentScaleAt
    rw [oscillation_zero]
    ring

/-- Witness for `oscillation_scale_correct` at `separation = 1000`,
`endSizePct = 0.4` and cycle position `t = 37/100`. -/
theorem oscillation_scale_correct_witness :
    (0 : ℚ) ≤ 1000 ∧ (0 : ℚ) < 0.4 ∧ (0.4 : ℚ) ≤ 1 ∧
    ((minScale 1000 0.4 : ℝ) ≤ currentScaleAt 1000 0.4 (37 / 100) ∧
      currentScaleAt 1000 0.4 (37 / 100) ≤ (maxScale 1000 : ℝ)) :=
  ⟨by norm_num, by norm_num, by norm_num,
    oscillation_scale_correct.2.2.2.1 1000 0.4 (37 / 100)
      (by norm_num) (by norm_num) (by norm_num)⟩

/-- Truncation toward zero, the rounding used by JavaScript's `%`. -/
def rtrunc (q : ℚ) : ℤ := if 0 ≤ q then ⌊q⌋ else ⌈q⌉

/-- JavaScript's sign-preserving remainder `a % b` (for `b > 0`). -/
def jsMod (a b : ℚ) : ℚ := a - b * rtrunc (a / b)

/-- Frame delta of one `animate` call: `dt = time - lastFrameTimeRef.current`
after the sentinel re-seed `if (lastFrameTimeRef.current === 0)
lastFrameTimeRef.current = time`. -/
def frameDelta (time : ℚ) (s : RotState) : ℚ :=
  time - (if s.lastFrameTime = 0 then time else s.lastFrameTime)

/-- Inputs of one `animate` call: the rotationSpeed prop, the callback
timestamp, and the two random draws (`Math.random() > 0.5` and
`Math.random() * 4000`). -/
structure TickInput where
  rotationSpeed : ℚ
  time : ℚ
  rdir : Bool
  rdelay : ℚ
deriving DecidableEq, Repr

/-- Rotation part of one `animate` call (lines 266-277 and 313-327):
update `lastFrameTimeRef`, and if `rotationSpeed > 0` re-roll the target
direction when its deadline has passed, smooth the direction with factor
0.02, and advance the angle by `(rotationSpeed * 90) / 1000 * smoothed * dt`
wrapped by the JS `% 360`. -/
def rotTick (rotationSpeed time : ℚ) (rdir : Bool) (rdelay : ℚ) (s : RotState) : RotState :=
  let dt := frameDelta time s
  let s1 := { s with lastFrameTime := time }
  if 0 < rotationSpeed then
    let tgt := if s1.nextDirectionChangeTime < time then (if rdir then 1 else -1)
      else s1.targetDirection
    let nextT := if s1.nextDirectionChangeTime < time then time + 2000 + rdelay
      else s1.nextDirectionChangeTime
    let smoothed := s1.smoothedDirection + (tgt - s1.smoothedDirection) * 0.02
    let deltaRotation := rotationSpeed * 90 / 1000 * smoothed * dt
    { s1 with
      targetDirection := tgt
      nextDirectionChangeTime := nextT
      smoothedDirection := smoothed
      currentRotation := jsMod (s1.currentRotation + deltaRotation) 360 }
  else s1

/-- A sequence of `animate` calls. -/
def runTicks (l : List TickInput) (s : RotState) : RotState :=
  l.foldl (fun s i => rotTick i.rotationSpeed i.time i.rdir i.rdelay s) s

theorem abs_jsMod_lt (a b : ℚ) (hb : 0 < b) : |jsMod a b| < b := by
  have hb' : b ≠ 0 := ne_of_gt hb
  have hba : b * (a / b) = a := by field_simp
  unfold jsMod rtrunc
  by_cases h : 0 ≤ a / b
  · rw [if_pos h, abs_lt]
    have h1 : ((⌊a / b⌋ : ℚ)) ≤ a / b := Int.floor_le _
    have h2 : a / b < ⌊a / b⌋ + 1 := Int.lt_floor_add_one _
    have h1' : b * ((⌊a / b⌋ : ℚ)) ≤ b * (a / b) := by
      exact mul_le_mul_of_nonneg_left h1 hb.le
    have h2' : b * (a / b) < b * ((⌊a / b⌋ : ℚ) + 1) := by
      exact mul_lt_mul_of_pos_left h2 hb
    rw [hba] at h1' h2'
    constructor <;> nlinarith
  · rw [if_neg h, abs_lt]
    have h1 : a / b ≤ ((⌈a / b⌉ : ℚ)) := Int.le_ceil _
    have h2 : ((⌈a / b⌉ : ℚ)) < a / b + 1 := Int.ceil_lt_add_one _
    have h1' : b * (a / b) ≤ b * ((⌈a / b⌉ : ℚ)) := by
      exact mul_le_mul_of_nonneg_left h1 hb.le
    have h2' : b * ((⌈a / b⌉ : ℚ)) < b * (a / b + 1) := by
      exact mul_lt_mul_of_pos_left h2 hb
    rw [hba] at h1'
    constructor <;> nlinarith

theorem rotTick_abs_lt (rs t : ℚ) (rd : Bool) (rdl : ℚ) (s : RotState)
    (h : |s.currentRotation| < 360) :
    |(rotTick rs t rd rdl s).currentRotation| < 360 := by
  unfold rotTick
  by_cases hrs : 0 < rs
  · simp only [if_pos hrs]
    exact abs_jsMod_lt _ 360 (by norm_num)
  · simp only [if_neg hrs]
    exact h

theorem runTicks_abs_lt (l : List TickInput) (s : RotState)
    (h : |s.currentRotation| < 360) :
    |(runTicks l s).currentRotation| < 360 := by
  induction l generalizing s with
  | nil => exact h
  | cons i tl ih =>
    exact ih _ (rotTick_abs_lt i.rotationSpeed i.time i.rdir i.rdelay s h)

/-- C10: starting from the initial state, every tick sequence keeps the
emitted angle strictly inside (-360, 360) — the JS sign-preserving `%`
never normalizes into [0, 360) — and the angle can indeed go negative:
two concrete ticks with a negative target direction leave it negative. -/
theorem rotation_angle_range :
    (∀ l : List TickInput, |(runTicks l initRotState).currentRotation| < 360) ∧
    (runTicks [⟨1, 1, false, 1000⟩, ⟨1, 2, false, 0⟩] initRotState).currentRotation < 0 := by
  constructor
  · intro l
    exact runTicks_abs_lt l initRotState (by norm_num [initRotState])
  · have h0 : (⌈-(99 / 10000000 : ℚ)⌉ : ℤ) = 0 := by norm_num
    norm_num [runTicks, rotTick, frameDelta, jsMod, rtrunc, initRotState, h0]

theorem rotTick_speed_zero (t : ℚ) (rd : Bool) (rdl : ℚ) (s : RotState) :
    rotTick 0 t rd rdl s = { s with lastFrameTime := t } := by
  unfold rotTick
  norm_num

/-- C8: if `rotationSpeed = 0` the rotation block is skipped, so across any
number of ticks the angle, the target direction, the smoothed direction
and the next-direction-change deadline are all unchanged. -/
theorem rotation_frozen_when_speed_zero (l : List TickInput) (s : RotState)
    (h : ∀ i ∈ l, i.rotationSpeed = 0) :
    (runTicks l s).currentRotation = s.currentRotation ∧
    (runTicks l s).targetDirection = s.targetDirection ∧
    (runTicks l s).smoothedDirection = s.smoothedDirection ∧
    (runTicks l s).nextDirectionChangeTime = s.nextDirectionChangeTime := by
  induction l generalizing s with
  | nil => exact ⟨rfl, rfl, rfl, rfl⟩
  | cons i tl ih =>
    have hi : i.rotationSpeed = 0 := h i (List.mem_cons_self _ _)
    have htl : ∀ j ∈ tl, j.rotationSpeed = 0 := fun j hj => h j (List.mem_cons_of_mem _ hj)
    have hstep : runTicks (i :: tl) s = runTicks tl { s with lastFrameTime := i.time } := by
      simp only [runTicks, List.foldl_cons]
      rw [hi, rotTick_speed_zero]
    rw [hstep]
    exact ih _ htl

/-- Witness for `rotation_frozen_when_speed_zero` on two concrete
zero-speed ticks from a state with distinctive field values. -/
theorem rotation_frozen_when_speed_zero_witness :
    (∀ i ∈ ([⟨0, 5, true, 7⟩, ⟨0, 9, false, 1⟩] : List TickInput), i.rotationSpeed = 0) ∧
    ((runTicks [⟨0, 5, true, 7⟩, ⟨0, 9, false, 1⟩] ⟨77, -1, 1 / 4, 42, 3⟩).currentRotation = 77 ∧
      (runTicks [⟨0, 5, true, 7⟩, ⟨0, 9, false, 1⟩] ⟨77, -1, 1 / 4, 42, 3⟩).targetDirection = -1 ∧
      (runTicks [⟨0, 5, true, 7⟩, ⟨0, 9, false, 1⟩] ⟨77, -1, 1 / 4, 42, 3⟩).smoothedDirection = 1 / 4 ∧
      (runTicks [⟨0, 5, true, 7⟩, ⟨0, 9, false, 1⟩] ⟨77, -1, 1 / 4, 42, 3⟩).nextDirectionChangeTime = 42) :=
  ⟨by simp,
    rotation_frozen_when_speed_zero [⟨0, 5, true, 7⟩, ⟨0, 9, false, 1⟩]
      ⟨77, -1, 1 / 4, 42, 3⟩ (by simp)⟩

/-- Invariant of the direction physics: the target direction is ±1 and the
smoothed direction stays in [-1, 1]. -/
def RotDirInv (s : RotState) : Prop :=
  (s.targetDirection = 1 ∨ s.targetDirection = -1) ∧
  -1 ≤ s.smoothedDirection ∧ s.smoothedDirection ≤ 1

theorem rotTick_dirInv (rs t : ℚ) (rd : Bool) (rdl : ℚ) (s : RotState)
    (h : RotDirInv s) : RotDirInv (rotTick rs t rd rdl s) := by
  obtain ⟨ht, hl, hu⟩ := h
  unfold rotTick RotDirInv
  by_cases hrs : 0 < rs
  · simp only [if_pos hrs]
    by_cases hc : s.nextDirectionChangeTime < t
    · simp only [hc, if_pos, if_true]
      cases rd <;> simp only [if_pos, if_neg, Bool.false_eq_true, if_false, if_true] <;>
        refine ⟨by tauto, by linarith, by linarith⟩
    · simp only [hc, if_neg, if_false]
      rcases ht with h1 | h1 <;> rw [h1] <;>
        exact ⟨by tauto, by linarith, by linarith⟩
  · simp only [if_neg hrs]
    exact ⟨ht, hl, hu⟩

theorem runTicks_dirInv (l : List TickInput) (s : RotState) (h : RotDirInv s) :
    RotDirInv (runTicks l s) := by
  induction l generalizing s with
  | nil => exact h
  | cons i tl ih =>
    exact ih _ (rotTick_dirInv i.rotationSpeed i.time i.rdir i.rdelay s h)

/-- C6: the smoothing step changes the smoothed direction by exactly
`(target - smoothed) * 0.02` on active ticks, hence the per-frame change
is bounded by `0.02 * |target - smoothed|` on every tick; and starting
from the initial value 0 the smoothed direction stays in [-1, 1] across
every tick sequence. -/
theorem smoothing_law :
    (∀ (rs t : ℚ) (rd : Bool) (rdl : ℚ) (s : RotState), 0 < rs →
      (rotTick rs t rd rdl s).smoothedDirection =
        s.smoothedDirection +
          ((rotTick rs t rd rdl s).targetDirection - s.smoothedDirection) * 0.02) ∧
    (∀ (rs t : ℚ) (rd : Bool) (rdl : ℚ) (s : RotState),
      |(rotTick rs t rd rdl s).smoothedDirection - s.smoothedDirection| ≤
        0.02 * |(rotTick rs t rd rdl s).targetDirection - s.smoothedDirection|) ∧
    (∀ l : List TickInput,
      -1 ≤ (runTicks l initRotState).smoothedDirection ∧
        (runTicks l initRotState).smoothedDirection ≤ 1) := by
  refine ⟨?_, ?_, ?_⟩
  · intro rs t rd rdl s hrs
    unfold rotTick
    simp only [if_pos hrs]
  · intro rs t rd rdl s
    by_cases hrs : 0 < rs
    · unfold rotTick
      simp only [if_pos hrs]
      rw [show ∀ sm tgt : ℚ, sm + (tgt - sm) * 0.02 - sm = (tgt - sm) * 0.02 from
        fun sm tgt => by ring, abs_mul]
      rw [show |(0.02 : ℚ)| = 0.02 from by norm_num, mul_comm]
    · unfold rotTick
      simp only [if_neg hrs]
      rw [sub_self, abs_zero]
      positivity
  · intro l
    have h := runTicks_dirInv l initRotState
      ⟨Or.inl rfl, by norm_num [initRotState], by norm_num [initRotState]⟩
    exact ⟨h.2.1, h.2.2⟩

/-- Witness for `smoothing_law` on one concrete active tick. -/
theorem smoothing_law_witness :
    (0 : ℚ) < 1 ∧
    (rotTick 1 1 true 0 initRotState).smoothedDirection =
      initRotState.smoothedDirection +
        ((rotTick 1 1 true 0 initRotState).targetDirection -
          initRotState.smoothedDirection) * 0.02 :=
  ⟨by norm_num, smoothing_law.1 1 1 true 0 initRotState (by norm_num)⟩

/-- C7: the Stopped-to-Running transition re-seeds `lastFrameTimeRef` to
`now`, so (for a nonzero resume timestamp, as the `=== 0` sentinel
requires) the first tick after resume measures its frame delta from `now`
and never from the pre-pause timestamp. -/
theorem resume_reseeds_frame_delta (s : EngineState) (now t : ℚ) (h : now ≠ 0) :
    (playingEffect now s).rot.lastFrameTime = now ∧
    frameDelta t (playingEffect now s).rot = t - now := by
  refine ⟨rfl, ?_⟩
  simp [playingEffect, frameDelta, h]

/-- Witness for `resume_reseeds_frame_delta`: resume at 10, first tick
at 16, from a paused engine whose pre-pause timestamp was 3. -/
theorem resume_reseeds_frame_delta_witness :
    (10 : ℚ) ≠ 0 ∧
    ((playingEffect 10 ⟨⟨none, 7⟩, ⟨77, -1, 1 / 4, 42, 3⟩⟩).rot.lastFrameTime = 10 ∧
      frameDelta 16 (playingEffect 10 ⟨⟨none, 7⟩, ⟨77, -1, 1 / 4, 42, 3⟩⟩).rot = 16 - 10) :=
  ⟨by norm_num,
    resume_reseeds_frame_delta ⟨⟨none, 7⟩, ⟨77, -1, 1 / 4, 42, 3⟩⟩ 10 16 (by norm_num)⟩
